import Mathlib

/-!
Shallow embedding of the state-aggregation engine of the paradex realtime
dashboard (src/src/hooks/useWebSocket.ts) together with the exit-order helper
of src/src/components/PositionsTable.tsx.

Modelling conventions:
* JavaScript numeric strings are embedded by their `parseFloat` image:
  `Option ℚ`, where `none` stands for `NaN` (an unparseable string).
  `parseFloat(x) || 0` becomes `orZero`; bare arithmetic on possibly-NaN
  values (the volume chain `parseFloat(price) * parseFloat(size)`) uses the
  NaN-propagating operations `jmul` / `jadd` on `Option ℚ`.
* Optional record fields (`string | undefined`) become an outer `Option`, so
  an account field of type `string | undefined` is `Option (Option ℚ)`
  (presence × parse result).
* JavaScript `Map`s are embedded as association lists in insertion order
  (`MapL`): `set` updates in place or appends, `delete` filters, matching the
  iteration-order semantics of `Map`.
* Timestamps are integers; each handler that reads `Date.now()` takes the
  current time as an explicit argument.
* The React `setState`/ref machinery is flattened into one `EngineState`
  record: `published` is the committed `DashboardState` (`stateRef.current`),
  the `*Ref` fields are the mutable refs, and `pending` is
  `pendingUpdatesRef.current`.  `flushUpdates` commits the pending batch.
-/

/-- `parseFloat(x) || 0`: a NaN (or zero) parse collapses to `0`. -/
def orZero (x : Option ℚ) : ℚ := x.getD 0

/-- NaN-propagating addition of JavaScript numbers. -/
def jadd (a b : Option ℚ) : Option ℚ :=
  match a, b with
  | some x, some y => some (x + y)
  | _, _ => none

/-- NaN-propagating multiplication of JavaScript numbers. -/
def jmul (a b : Option ℚ) : Option ℚ :=
  match a, b with
  | some x, some y => some (x * y)
  | _, _ => none

/-- `x || y` on JavaScript numbers: NaN and `0` are falsy. -/
def jsOrNum (x : Option ℚ) (y : ℚ) : ℚ :=
  match x with
  | some v => if v = 0 then y else v
  | none => y

/-- `order.updated_at || order.created_at`: `undefined` and `0` are falsy. -/
def jsOrTime (x : Option ℤ) (y : ℤ) : ℤ :=
  match x with
  | some t => if t = 0 then y else t
  | none => y

/-- A JavaScript `Map` with string keys, as an association list in insertion
order. -/
abbrev MapL (α : Type) : Type := List (String × α)

/-- `Map.prototype.get`. -/
def mget {α : Type} (m : MapL α) (k : String) : Option α :=
  (m.find? (fun e => e.1 = k)).map Prod.snd

/-- `Map.prototype.set`: update in place if the key is present (keeping its
position), otherwise append. -/
def mset {α : Type} (m : MapL α) (k : String) (v : α) : MapL α :=
  if (mget m k).isSome then
    m.map (fun e => if e.1 = k then (k, v) else e)
  else
    m ++ [(k, v)]

/-- `Map.prototype.delete`. -/
def mdelete {α : Type} (m : MapL α) (k : String) : MapL α :=
  m.filter (fun e => e.1 ≠ k)

/-- `new Map([...prev, ...next])`: entries of `prev`, then of `next`, later
writes to the same key overwriting earlier ones. -/
def mmerge {α : Type} (prev next : MapL α) : MapL α :=
  next.foldl (fun acc e => mset acc e.1 e.2) prev

/-- A `fills` event (types/paradex.ts `Fill`), numeric strings replaced by
their parse image. -/
structure Fill where
  id : String
  market : String
  side : String
  size : Option ℚ
  price : Option ℚ
  realized_pnl : Option ℚ
  fee : Option ℚ
  created_at : ℤ
  order_id : String
  trade_type : String
deriving DecidableEq, Repr

/-- An `orders` event (types/paradex.ts `Order`). -/
structure Order where
  id : String
  market : String
  side : String
  type : String
  size : Option ℚ
  remaining_size : Option (Option ℚ)
  price : Option ℚ
  status : String
  created_at : ℤ
  updated_at : Option ℤ
deriving DecidableEq, Repr

/-- A `positions` event (useWebSocket.ts `WSPosition`).  Fields the engine
never parses stay `String`. -/
structure WSPosition where
  market : String
  side : String
  status : Option String
  size : Option ℚ
  leverage : Option String
  unrealized_pnl : Option ℚ
  unrealized_funding_pnl : Option String
  realized_positional_pnl : Option String
  average_entry_price : String
  average_entry_price_usd : Option String
  liquidation_price : Option String
  cost : Option String
  cost_usd : Option String
deriving DecidableEq, Repr

/-- An `account` event (useWebSocket.ts `AccountData`): each field is
`string | undefined`, hence presence × parse result. -/
structure AccountData where
  equity : Option (Option ℚ)
  account_value : Option (Option ℚ)
  free_collateral : Option (Option ℚ)
  unrealized_pnl : Option (Option ℚ)
deriving DecidableEq, Repr

/-- A published position row (types/paradex.ts `Position`). -/
structure Position where
  id : String
  market : String
  side : String
  status : String
  size : Option ℚ
  leverage : Option String
  average_entry_price : String
  average_entry_price_usd : Option String
  liquidation_price : Option String
  unrealized_pnl : Option ℚ
  unrealized_funding_pnl : Option String
  realized_positional_pnl : Option String
  cost : Option String
  cost_usd : Option String
deriving DecidableEq, Repr

/-- Per-market running totals (types/paradex.ts `MarketStats`). -/
structure MarketStats where
  market : String
  realizedPnL : ℚ
  unrealizedPnL : ℚ
  fees : ℚ
  volume : Option ℚ
  orderCount : ℕ
  fillCount : ℕ
deriving DecidableEq, Repr

/-- A `{time, value}` chart point. -/
structure Pt where
  time : ℤ
  value : ℚ
deriving DecidableEq, Repr

/-- A `{time, value, market}` volume point (value may be NaN). -/
structure VolPt where
  time : ℤ
  value : Option ℚ
  market : String
deriving DecidableEq, Repr

/-- The published `DashboardState`. -/
structure DashboardState where
  realizedPnL : ℚ
  unrealizedPnL : ℚ
  totalFees : ℚ
  totalVolume : Option ℚ
  ordersCreated : ℕ
  equity : ℚ
  pnlHistory : List Pt
  volumeHistory : List VolPt
  ordersHistory : List Pt
  equityHistory : List Pt
  recentFills : List Fill
  positions : List Position
  openOrders : MapL Order
  allOpenOrders : MapL (List Order)
  lastOrderTimeByMarket : MapL ℤ
  lastFillTimeByMarket : MapL ℤ
  marketStats : MapL MarketStats
deriving DecidableEq

/-- The batched pending deltas (useWebSocket.ts `PendingUpdates`). -/
structure PendingUpdates where
  fills : List Fill
  pnlPoints : List Pt
  volumePoints : List VolPt
  equityPoints : List Pt
  orderPoints : List Pt
  realizedPnLDelta : ℚ
  feesDelta : ℚ
  volumeDelta : Option ℚ
  newOrdersCount : ℕ
  equity : Option ℚ
  unrealizedPnL : Option ℚ
  positionsChanged : Bool
  ordersChanged : Bool
  allOrdersChanged : Bool
  lastOrderTimes : MapL ℤ
  lastFillTimes : MapL ℤ
  marketStatsChanged : Bool
deriving DecidableEq

/-- `createEmptyPendingUpdates()`. -/
def createEmptyPendingUpdates : PendingUpdates :=
  { fills := []
    pnlPoints := []
    volumePoints := []
    equityPoints := []
    orderPoints := []
    realizedPnLDelta := 0
    feesDelta := 0
    volumeDelta := some 0
    newOrdersCount := 0
    equity := none
    unrealizedPnL := none
    positionsChanged := false
    ordersChanged := false
    allOrdersChanged := false
    lastOrderTimes := []
    lastFillTimes := []
    marketStatsChanged := false }

/-- The whole engine: committed state, mutable refs, pending batch. -/
structure EngineState where
  published : DashboardState
  positionsRef : MapL WSPosition
  openOrdersRef : MapL Order
  allOpenOrdersRef : MapL (MapL Order)
  lastOrderTimeRef : MapL ℤ
  lastFillTimeRef : MapL ℤ
  marketStatsRef : MapL MarketStats
  pending : PendingUpdates
deriving DecidableEq

/-- The `useState` initialiser of the dashboard state. -/
def initDashboardState : DashboardState :=
  { realizedPnL := 0
    unrealizedPnL := 0
    totalFees := 0
    totalVolume := some 0
    ordersCreated := 0
    equity := 0
    pnlHistory := []
    volumeHistory := []
    ordersHistory := []
    equityHistory := []
    recentFills := []
    positions := []
    openOrders := []
    allOpenOrders := []
    lastOrderTimeByMarket := []
    lastFillTimeByMarket := []
    marketStats := [] }

/-- Engine state at mount: empty refs, empty pending batch. -/
def initState : EngineState :=
  { published := initDashboardState
    positionsRef := []
    openOrdersRef := []
    allOpenOrdersRef := []
    lastOrderTimeRef := []
    lastFillTimeRef := []
    marketStatsRef := []
    pending := createEmptyPendingUpdates }

/-- The fresh per-market stats record both handlers create on a miss. -/
def emptyStats (market : String) : MarketStats :=
  { market := market
    realizedPnL := 0
    unrealizedPnL := 0
    fees := 0
    volume := some 0
    orderCount := 0
    fillCount := 0 }

/-- `MAX_HISTORY_POINTS`. -/
def MAX_HISTORY_POINTS : ℕ := 1000

/-- `handleFill`. -/
def handleFill (now : ℤ) (fill : Fill) (s : EngineState) : EngineState :=
  let fillVolume := jmul fill.price fill.size
  let fillRealizedPnL := orZero fill.realized_pnl
  let fillFee := orZero fill.fee
  let stats := (mget s.marketStatsRef fill.market).getD (emptyStats fill.market)
  let stats :=
    { stats with
      realizedPnL := stats.realizedPnL + fillRealizedPnL
      fees := stats.fees + fillFee
      volume := jadd stats.volume fillVolume
      fillCount := stats.fillCount + 1 }
  let p := s.pending
  let realizedPnLDelta := p.realizedPnLDelta + fillRealizedPnL
  let feesDelta := p.feesDelta + fillFee
  let newRealizedPnL := s.published.realizedPnL + realizedPnLDelta
  let newTotalFees := s.published.totalFees + feesDelta
  let unrealizedPnL := p.unrealizedPnL.getD s.published.unrealizedPnL
  let newTotalPnL := newRealizedPnL - newTotalFees + unrealizedPnL
  { s with
    marketStatsRef := mset s.marketStatsRef fill.market stats
    lastFillTimeRef := mset s.lastFillTimeRef fill.market now
    pending :=
      { p with
        fills := p.fills ++ [fill]
        realizedPnLDelta := realizedPnLDelta
        feesDelta := feesDelta
        volumeDelta := jadd p.volumeDelta fillVolume
        volumePoints := p.volumePoints ++ [⟨now, fillVolume, fill.market⟩]
        marketStatsChanged := true
        lastFillTimes := mset p.lastFillTimes fill.market now
        pnlPoints := p.pnlPoints ++ [⟨now, newTotalPnL⟩] } }

/-- `handleOrder`. -/
def handleOrder (order : Order) (s : EngineState) : EngineState :=
  let orderTime := jsOrTime order.updated_at order.created_at
  let s :=
    { s with
      lastOrderTimeRef := mset s.lastOrderTimeRef order.market orderTime
      pending :=
        { s.pending with
          lastOrderTimes := mset s.pending.lastOrderTimes order.market orderTime } }
  if order.status = "NEW" ∨ order.status = "OPEN" then
    let marketOrders := (mget s.allOpenOrdersRef order.market).getD []
    let stats := (mget s.marketStatsRef order.market).getD (emptyStats order.market)
    { s with
      openOrdersRef := mset s.openOrdersRef order.market order
      allOpenOrdersRef :=
        mset s.allOpenOrdersRef order.market (mset marketOrders order.id order)
      marketStatsRef :=
        mset s.marketStatsRef order.market { stats with orderCount := stats.orderCount + 1 }
      pending :=
        { s.pending with
          ordersChanged := true
          newOrdersCount := s.pending.newOrdersCount + 1
          orderPoints := s.pending.orderPoints ++ [⟨order.created_at, 0⟩]
          allOrdersChanged := true
          marketStatsChanged := true } }
  else if order.status = "CLOSED" ∨ order.status = "CANCELED" ∨ order.status = "REJECTED" then
    let s :=
      if (mget s.openOrdersRef order.market).map Order.id = some order.id then
        { s with
          openOrdersRef := mdelete s.openOrdersRef order.market
          pending := { s.pending with ordersChanged := true } }
      else s
    match mget s.allOpenOrdersRef order.market with
    | none => s
    | some marketOrders =>
        let marketOrders := mdelete marketOrders order.id
        { s with
          allOpenOrdersRef :=
            if marketOrders.isEmpty then mdelete s.allOpenOrdersRef order.market
            else mset s.allOpenOrdersRef order.market marketOrders
          pending := { s.pending with allOrdersChanged := true } }
  else s

/-- Sum of `parseFloat(pos.unrealized_pnl) || 0` over the tracked positions. -/
def posTotalUnrealized (m : MapL WSPosition) : ℚ :=
  m.foldl (fun acc e => acc + orZero e.2.unrealized_pnl) 0

/-- `handlePosition`. -/
def handlePosition (now : ℤ) (wsPosition : WSPosition) (s : EngineState) : EngineState :=
  let s :=
    if wsPosition.status = some "CLOSED" ∨ wsPosition.size = some 0 then
      let s := { s with positionsRef := mdelete s.positionsRef wsPosition.market }
      match mget s.marketStatsRef wsPosition.market with
      | none => s
      | some stats =>
          { s with
            marketStatsRef :=
              mset s.marketStatsRef wsPosition.market { stats with unrealizedPnL := 0 }
            pending := { s.pending with marketStatsChanged := true } }
    else
      let stats := (mget s.marketStatsRef wsPosition.market).getD (emptyStats wsPosition.market)
      { s with
        positionsRef := mset s.positionsRef wsPosition.market wsPosition
        marketStatsRef :=
          mset s.marketStatsRef wsPosition.market
            { stats with unrealizedPnL := orZero wsPosition.unrealized_pnl }
        pending := { s.pending with marketStatsChanged := true } }
  let totalUnrealized := posTotalUnrealized s.positionsRef
  let realizedPnL := s.published.realizedPnL + s.pending.realizedPnLDelta
  let totalFees := s.published.totalFees + s.pending.feesDelta
  let newTotalPnL := realizedPnL - totalFees + totalUnrealized
  { s with
    pending :=
      { s.pending with
        unrealizedPnL := some totalUnrealized
        positionsChanged := true
        pnlPoints := s.pending.pnlPoints ++ [⟨now, newTotalPnL⟩] } }

/-- `parseFloat(account.equity ?? '') || parseFloat(account.account_value ?? '') || 0`. -/
def accountEquity (account : AccountData) : ℚ :=
  jsOrNum (account.equity.getD none) (jsOrNum (account.account_value.getD none) 0)

/-- `handleAccount`. -/
def handleAccount (now : ℤ) (account : AccountData) (s : EngineState) : EngineState :=
  let newEquity := accountEquity account
  let newUnrealizedPnL := orZero (account.unrealized_pnl.getD none)
  let p := s.pending
  let p :=
    if 0 < newEquity then
      { p with
        equity := some newEquity
        equityPoints := p.equityPoints ++ [⟨now, newEquity⟩] }
    else p
  let p :=
    if newUnrealizedPnL ≠ 0 ∨ account.unrealized_pnl ≠ none then
      let realizedPnL := s.published.realizedPnL + p.realizedPnLDelta
      let totalFees := s.published.totalFees + p.feesDelta
      let newTotalPnL := realizedPnL - totalFees + newUnrealizedPnL
      { p with
        unrealizedPnL := some newUnrealizedPnL
        pnlPoints := p.pnlPoints ++ [⟨now, newTotalPnL⟩] }
    else p
  { s with pending := p }

/-- The `limitArray` closure in `flushUpdates` (`slice(-max)` is
`drop (length - max)`). -/
def limitArray {α : Type} (arr newItems : List α) (max : ℕ) : List α :=
  if newItems.isEmpty then arr
  else
    let combined := arr ++ newItems
    if max < combined.length then combined.drop (combined.length - max) else combined

/-- The `(a, b) => a.time - b.time` comparator as a sort order. -/
def ptLe (a b : Pt) : Bool := decide (a.time ≤ b.time)

/-- Snapshot of a tracked `WSPosition` into a published `Position` row. -/
def toPosition (market : String) (pos : WSPosition) : Position :=
  { id := market
    market := market
    side := pos.side
    status := "OPEN"
    size := pos.size
    leverage := pos.leverage
    average_entry_price := pos.average_entry_price
    average_entry_price_usd := pos.average_entry_price_usd
    liquidation_price := pos.liquidation_price
    unrealized_pnl := pos.unrealized_pnl
    unrealized_funding_pnl := pos.unrealized_funding_pnl
    realized_positional_pnl := pos.realized_positional_pnl
    cost := pos.cost
    cost_usd := pos.cost_usd }

/-- The `flushUpdates` skip guard: nothing to update. -/
def pendingEmpty (pending : PendingUpdates) : Prop :=
  pending.fills = [] ∧ pending.pnlPoints = [] ∧ pending.volumePoints = [] ∧
    pending.equityPoints = [] ∧ pending.orderPoints = [] ∧
    pending.realizedPnLDelta = 0 ∧ pending.feesDelta = 0 ∧
    pending.volumeDelta = some 0 ∧ pending.newOrdersCount = 0 ∧
    pending.equity = none ∧ pending.unrealizedPnL = none ∧
    pending.positionsChanged = false ∧ pending.ordersChanged = false ∧
    pending.allOrdersChanged = false ∧ pending.lastOrderTimes = [] ∧
    pending.lastFillTimes = [] ∧ pending.marketStatsChanged = false

instance (pending : PendingUpdates) : Decidable (pendingEmpty pending) := by
  unfold pendingEmpty
  infer_instance

/-- `flushUpdates`: commit the pending batch into the published state. -/
def flushUpdates (s : EngineState) : EngineState :=
  let pending := s.pending
  if pendingEmpty pending then
    s
  else
    let prev := s.published
    let newRealizedPnL := prev.realizedPnL + pending.realizedPnLDelta
    let newTotalFees := prev.totalFees + pending.feesDelta
    let newTotalVolume := jadd prev.totalVolume pending.volumeDelta
    let newOrdersCount := prev.ordersCreated + pending.newOrdersCount
    let newEquity := pending.equity.getD prev.equity
    let newUnrealizedPnL := pending.unrealizedPnL.getD prev.unrealizedPnL
    let newPositions :=
      if pending.positionsChanged then
        s.positionsRef.map (fun e => toPosition e.1 e.2)
      else prev.positions
    let published :=
      { prev with
        realizedPnL := newRealizedPnL
        totalFees := newTotalFees
        totalVolume := newTotalVolume
        ordersCreated := newOrdersCount
        equity := newEquity
        unrealizedPnL := newUnrealizedPnL
        recentFills :=
          if pending.fills ≠ [] then
            (pending.fills.reverse ++ prev.recentFills).take 100
          else prev.recentFills
        pnlHistory := limitArray prev.pnlHistory pending.pnlPoints MAX_HISTORY_POINTS
        volumeHistory := limitArray prev.volumeHistory pending.volumePoints MAX_HISTORY_POINTS
        equityHistory := limitArray prev.equityHistory pending.equityPoints MAX_HISTORY_POINTS
        ordersHistory :=
          if pending.orderPoints ≠ [] then
            ((limitArray prev.ordersHistory pending.orderPoints MAX_HISTORY_POINTS).mergeSort
                ptLe).mapIdx
              (fun index point => ⟨point.time, (index : ℚ) + 1⟩)
          else prev.ordersHistory
        positions := newPositions
        openOrders := if pending.ordersChanged then s.openOrdersRef else prev.openOrders
        allOpenOrders :=
          if pending.allOrdersChanged then
            s.allOpenOrdersRef.map (fun e => (e.1, e.2.map Prod.snd))
          else prev.allOpenOrders
        lastOrderTimeByMarket :=
          if pending.lastOrderTimes ≠ [] then
            mmerge prev.lastOrderTimeByMarket s.lastOrderTimeRef
          else prev.lastOrderTimeByMarket
        lastFillTimeByMarket :=
          if pending.lastFillTimes ≠ [] then
            mmerge prev.lastFillTimeByMarket s.lastFillTimeRef
          else prev.lastFillTimeByMarket
        marketStats :=
          if pending.marketStatsChanged then s.marketStatsRef else prev.marketStats }
    { s with published := published, pending := createEmptyPendingUpdates }

/-- One engine action: an incoming event (with its arrival time where the
handler reads the clock) or a batch flush. -/
inductive Act where
  | fill (now : ℤ) (f : Fill)
  | order (o : Order)
  | position (now : ℤ) (p : WSPosition)
  | account (now : ℤ) (a : AccountData)
  | flush
deriving DecidableEq, Repr

/-- Dispatch one action. -/
def step (s : EngineState) (a : Act) : EngineState :=
  match a with
  | Act.fill now f => handleFill now f s
  | Act.order o => handleOrder o s
  | Act.position now p => handlePosition now p s
  | Act.account now a => handleAccount now a s
  | Act.flush => flushUpdates s

/-- Run a trace of actions from the mount state. -/
def run (acts : List Act) : EngineState :=
  acts.foldl step initState

/-- `getExitOrder` from PositionsTable.tsx. -/
def getExitOrder (openOrders : MapL Order) (position : Position) : Option Order :=
  match mget openOrders position.market with
  | none => none
  | some order =>
      if (position.side = "LONG" ∧ order.side = "SELL") ∨
          (position.side = "SHORT" ∧ order.side = "BUY") then
        some order
      else none

/-- The total P&L the handlers recompute before pushing a chart point:
committed totals plus the pending deltas, with the pending unrealized
override when present. -/
def curTotalPnL (s : EngineState) : ℚ :=
  s.published.realizedPnL + s.pending.realizedPnLDelta
    - (s.published.totalFees + s.pending.feesDelta)
    + s.pending.unrealizedPnL.getD s.published.unrealizedPnL

/-- `orderCount` tracked in the mutable per-market ref (0 when absent). -/
def refOrderCount (s : EngineState) (m : String) : ℕ :=
  ((mget s.marketStatsRef m).map MarketStats.orderCount).getD 0

/-- `fillCount` tracked in the mutable per-market ref (0 when absent). -/
def refFillCount (s : EngineState) (m : String) : ℕ :=
  ((mget s.marketStatsRef m).map MarketStats.fillCount).getD 0

/-- `orderCount` in a published state (0 when the market is absent). -/
def pubOrderCount (d : DashboardState) (m : String) : ℕ :=
  ((mget d.marketStats m).map MarketStats.orderCount).getD 0

/-- `fillCount` in a published state (0 when the market is absent). -/
def pubFillCount (d : DashboardState) (m : String) : ℕ :=
  ((mget d.marketStats m).map MarketStats.fillCount).getD 0

/-- The unrealized-P&L contribution of one market to the tracked total. -/
def posContribution (m : MapL WSPosition) (k : String) : ℚ :=
  ((mget m k).map (fun q => orZero q.unrealized_pnl)).getD 0

/-- A fill whose price, size and fee all parse to non-negative numbers. -/
def goodFill (f : Fill) : Prop :=
  (∃ v, f.price = some v ∧ 0 ≤ v) ∧ (∃ v, f.size = some v ∧ 0 ≤ v) ∧
    (∃ v, f.fee = some v ∧ 0 ≤ v)

/-- Traces whose fills all parse to non-negative price, size and fee. -/
def goodAct : Act → Prop
  | Act.fill _ f => goodFill f
  | _ => True

/-- Componentwise order on the counters the spec calls monotone:
`ordersCreated`, `totalFees`, cumulative `totalVolume`, and each market's
`orderCount` and `fillCount`. -/
def countersLE (d₁ d₂ : DashboardState) : Prop :=
  d₁.ordersCreated ≤ d₂.ordersCreated ∧ d₁.totalFees ≤ d₂.totalFees ∧
    (∀ v₁, d₁.totalVolume = some v₁ → ∃ v₂, d₂.totalVolume = some v₂ ∧ v₁ ≤ v₂) ∧
    ∀ m, pubOrderCount d₁ m ≤ pubOrderCount d₂ m ∧ pubFillCount d₁ m ≤ pubFillCount d₂ m

/-- Internal invariant feeding the monotonicity proof: the pending deltas of
a well-parsed trace are non-negative, the cumulative volume is a number (not
NaN), and the published per-market counters never exceed the ref ones. -/
def countersInv (s : EngineState) : Prop :=
  0 ≤ s.pending.feesDelta ∧
    (∃ v, s.pending.volumeDelta = some v ∧ 0 ≤ v) ∧
    (∃ tv, s.published.totalVolume = some tv) ∧
    ∀ m, pubOrderCount s.published m ≤ refOrderCount s m ∧
      pubFillCount s.published m ≤ refFillCount s m

/-- Concrete fill fixture: the §8 scenario fill (size 0.01, price 90000,
fee 1.80, zero realized P&L). -/
def sampleFill : Fill :=
  { id := "f1"
    market := "BTC-USD-PERP"
    side := "BUY"
    size := some (1 / 100)
    price := some 90000
    realized_pnl := some 0
    fee := some (9 / 5)
    created_at := 1
    order_id := "o1"
    trade_type := "FILL" }

/-- Concrete position fixture: the §8 scenario snapshot (LONG 0.01,
unrealized P&L 5.00). -/
def samplePos : WSPosition :=
  { market := "BTC-USD-PERP"
    side := "LONG"
    status := none
    size := some (1 / 100)
    leverage := none
    unrealized_pnl := some 5
    unrealized_funding_pnl := none
    realized_positional_pnl := none
    average_entry_price := "90000"
    average_entry_price_usd := none
    liquidation_price := none
    cost := none
    cost_usd := none }

/-- A closing snapshot for the same market (size parses to 0). -/
def samplePosClosed : WSPosition :=
  { samplePos with size := some 0, unrealized_pnl := some 0 }

/-- Concrete OPEN order fixture. -/
def sampleOrderOpen : Order :=
  { id := "o1"
    market := "BTC-USD-PERP"
    side := "SELL"
    type := "LIMIT"
    size := some 1
    remaining_size := none
    price := some 90000
    status := "OPEN"
    created_at := 5
    updated_at := none }

/-- A second OPEN order on the same market. -/
def sampleOrderOpen2 : Order :=
  { sampleOrderOpen with id := "o2", created_at := 3 }

/-- A third OPEN order on the same market. -/
def sampleOrderOpen3 : Order :=
  { sampleOrderOpen with id := "o3", created_at := 4 }

/-- Concrete account fixture with positive equity. -/
def sampleAccount : AccountData :=
  { equity := some (some 10)
    account_value := none
    free_collateral := none
    unrealized_pnl := none }

/-- Concrete SELL exit-order map and LONG position for the §8 exit-order
scenario. -/
def samplePositionRow : Position := toPosition "ETH-USD-PERP" { samplePos with market := "ETH-USD-PERP" }

/-- The tracked-open-order map holding one SELL order on ETH-USD-PERP. -/
def sampleOpenOrders : MapL Order :=
  [("ETH-USD-PERP", { sampleOrderOpen with market := "ETH-USD-PERP" })]

lemma mget_cons {α : Type} (e : String × α) (rest : MapL α) (k : String) :
    mget (e :: rest) k = if e.1 = k then some e.2 else mget rest k := by
  by_cases h : e.1 = k <;> simp [mget, List.find?_cons, h]

lemma mget_map_replace {α : Type} (m : MapL α) (k k' : String) (v : α) (h : k' ≠ k) :
    mget (m.map (fun e => if e.1 = k then (k, v) else e)) k' = mget m k' := by
  induction m with
  | nil => rfl
  | cons e rest ih =>
      by_cases he : e.1 = k
      · simp [he, mget_cons, ih, Ne.symm h]
      · simp [he, mget_cons, ih]

lemma mget_map_replace_self {α : Type} (m : MapL α) (k : String) (v : α)
    (h : (mget m k).isSome) :
    mget (m.map (fun e => if e.1 = k then (k, v) else e)) k = some v := by
  induction m with
  | nil => simp [mget] at h
  | cons e rest ih =>
      by_cases he : e.1 = k
      · simp [he, mget_cons]
      · have h' : (mget rest k).isSome := by
          simpa [mget_cons, he] using h
        simp [he, mget_cons, ih h']

lemma mget_append_single {α : Type} (m : MapL α) (k k' : String) (v : α) :
    mget (m ++ [(k, v)]) k' =
      match mget m k' with
      | some w => some w
      | none => if k = k' then some v else none := by
  induction m with
  | nil => by_cases h : k = k' <;> simp [mget, List.find?_cons, h]
  | cons e rest ih =>
      by_cases he : e.1 = k' <;> simp [mget_cons, he, ih]

lemma mget_mset_self {α : Type} (m : MapL α) (k : String) (v : α) :
    mget (mset m k v) k = some v := by
  cases hm : mget m k with
  | some w =>
      have h : (mget m k).isSome := by rw [hm]; rfl
      unfold mset
      rw [if_pos h]
      exact mget_map_replace_self m k v h
  | none =>
      unfold mset
      rw [hm]
      simp [mget_append_single, hm]

lemma mget_mset_ne {α : Type} (m : MapL α) (k k' : String) (v : α) (h : k' ≠ k) :
    mget (mset m k v) k' = mget m k' := by
  cases hm : mget m k with
  | some w =>
      have hp : (mget m k).isSome := by rw [hm]; rfl
      unfold mset
      rw [if_pos hp]
      exact mget_map_replace m k k' v h
  | none =>
      unfold mset
      rw [hm]
      simp only [Option.isSome_none, Bool.false_eq_true, if_false]
      rw [mget_append_single]
      cases hg : mget m k' with
      | none => simp [Ne.symm h]
      | some w => rfl

lemma mget_mset {α : Type} (m : MapL α) (k k' : String) (v : α) :
    mget (mset m k v) k' = if k' = k then some v else mget m k' := by
  by_cases h : k' = k
  · subst h; simp [mget_mset_self]
  · simp [h, mget_mset_ne m k k' v h]

lemma mget_eq_none_iff {α : Type} (m : MapL α) (k : String) :
    mget m k = none ↔ ∀ e ∈ m, e.1 ≠ k := by
  simp [mget, List.find?_eq_none]

lemma mget_mdelete_self {α : Type} (m : MapL α) (k : String) :
    mget (mdelete m k) k = none := by
  rw [mget_eq_none_iff]
  intro e he
  have := List.of_mem_filter he
  simpa using this

lemma mget_mdelete_ne {α : Type} (m : MapL α) (k k' : String) (h : k' ≠ k) :
    mget (mdelete m k) k' = mget m k' := by
  induction m with
  | nil => rfl
  | cons e rest ih =>
      by_cases he : e.1 = k
      · have h1 : mdelete (e :: rest) k = mdelete rest k := by
          simp [mdelete, List.filter_cons, he]
        have h2 : e.1 ≠ k' := by rw [he]; exact Ne.symm h
        rw [h1, ih, mget_cons, if_neg h2]
      · have h1 : mdelete (e :: rest) k = e :: mdelete rest k := by
          simp [mdelete, List.filter_cons, he]
        rw [h1, mget_cons, mget_cons, ih]

lemma mdelete_eq_self {α : Type} (m : MapL α) (k : String) (h : mget m k = none) :
    mdelete m k = m := by
  rw [mget_eq_none_iff] at h
  unfold mdelete
  rw [List.filter_eq_self]
  intro e he
  simpa using h e he

lemma flushUpdates_skip (s : EngineState) (h : pendingEmpty s.pending) :
    flushUpdates s = s := by
  simp only [flushUpdates]
  rw [if_pos h]

lemma flushUpdates_pending (s : EngineState) (h : ¬ pendingEmpty s.pending) :
    (flushUpdates s).pending = createEmptyPendingUpdates := by
  simp only [flushUpdates]
  rw [if_neg h]

lemma flushUpdates_equity (s : EngineState) (h : ¬ pendingEmpty s.pending) :
    (flushUpdates s).published.equity = s.pending.equity.getD s.published.equity := by
  simp only [flushUpdates]
  rw [if_neg h]

lemma flushUpdates_realizedPnL (s : EngineState) (h : ¬ pendingEmpty s.pending) :
    (flushUpdates s).published.realizedPnL =
      s.published.realizedPnL + s.pending.realizedPnLDelta := by
  simp only [flushUpdates]
  rw [if_neg h]

lemma flushUpdates_totalFees (s : EngineState) (h : ¬ pendingEmpty s.pending) :
    (flushUpdates s).published.totalFees = s.published.totalFees + s.pending.feesDelta := by
  simp only [flushUpdates]
  rw [if_neg h]

lemma flushUpdates_totalVolume (s : EngineState) (h : ¬ pendingEmpty s.pending) :
    (flushUpdates s).published.totalVolume =
      jadd s.published.totalVolume s.pending.volumeDelta := by
  simp only [flushUpdates]
  rw [if_neg h]

lemma flushUpdates_ordersCreated (s : EngineState) (h : ¬ pendingEmpty s.pending) :
    (flushUpdates s).published.ordersCreated =
      s.published.ordersCreated + s.pending.newOrdersCount := by
  simp only [flushUpdates]
  rw [if_neg h]

lemma flushUpdates_unrealizedPnL (s : EngineState) (h : ¬ pendingEmpty s.pending) :
    (flushUpdates s).published.unrealizedPnL =
      s.pending.unrealizedPnL.getD s.published.unrealizedPnL := by
  simp only [flushUpdates]
  rw [if_neg h]

lemma flushUpdates_recentFills (s : EngineState) (h : ¬ pendingEmpty s.pending) :
    (flushUpdates s).published.recentFills =
      if s.pending.fills ≠ [] then
        (s.pending.fills.reverse ++ s.published.recentFills).take 100
      else s.published.recentFills := by
  simp only [flushUpdates]
  rw [if_neg h]

lemma flushUpdates_pnlHistory (s : EngineState) (h : ¬ pendingEmpty s.pending) :
    (flushUpdates s).published.pnlHistory =
      limitArray s.published.pnlHistory s.pending.pnlPoints MAX_HISTORY_POINTS := by
  simp only [flushUpdates]
  rw [if_neg h]

lemma flushUpdates_volumeHistory (s : EngineState) (h : ¬ pendingEmpty s.pending) :
    (flushUpdates s).published.volumeHistory =
      limitArray s.published.volumeHistory s.pending.volumePoints MAX_HISTORY_POINTS := by
  simp only [flushUpdates]
  rw [if_neg h]

lemma flushUpdates_equityHistory (s : EngineState) (h : ¬ pendingEmpty s.pending) :
    (flushUpdates s).published.equityHistory =
      limitArray s.published.equityHistory s.pending.equityPoints MAX_HISTORY_POINTS := by
  simp only [flushUpdates]
  rw [if_neg h]

lemma flushUpdates_ordersHistory (s : EngineState) (h : ¬ pendingEmpty s.pending) :
    (flushUpdates s).published.ordersHistory =
      if s.pending.orderPoints ≠ [] then
        ((limitArray s.published.ordersHistory s.pending.orderPoints
              MAX_HISTORY_POINTS).mergeSort ptLe).mapIdx
          (fun index point => ⟨point.time, (index : ℚ) + 1⟩)
      else s.published.ordersHistory := by
  simp only [flushUpdates]
  rw [if_neg h]

lemma flushUpdates_positions (s : EngineState) (h : ¬ pendingEmpty s.pending) :
    (flushUpdates s).published.positions =
      if s.pending.positionsChanged then s.positionsRef.map (fun e => toPosition e.1 e.2)
      else s.published.positions := by
  simp only [flushUpdates]
  rw [if_neg h]

lemma flushUpdates_marketStats (s : EngineState) (h : ¬ pendingEmpty s.pending) :
    (flushUpdates s).published.marketStats =
      if s.pending.marketStatsChanged then s.marketStatsRef else s.published.marketStats := by
  simp only [flushUpdates]
  rw [if_neg h]

lemma flushUpdates_positionsRef (s : EngineState) :
    (flushUpdates s).positionsRef = s.positionsRef := by
  simp only [flushUpdates]
  split <;> rfl

lemma flushUpdates_marketStatsRef (s : EngineState) :
    (flushUpdates s).marketStatsRef = s.marketStatsRef := by
  simp only [flushUpdates]
  split <;> rfl

lemma handleFill_published (now : ℤ) (f : Fill) (s : EngineState) :
    (handleFill now f s).published = s.published := rfl

lemma handleFill_positionsRef (now : ℤ) (f : Fill) (s : EngineState) :
    (handleFill now f s).positionsRef = s.positionsRef := rfl

lemma handleFill_pending_feesDelta (now : ℤ) (f : Fill) (s : EngineState) :
    (handleFill now f s).pending.feesDelta = s.pending.feesDelta + orZero f.fee := rfl

lemma handleFill_pending_realizedPnLDelta (now : ℤ) (f : Fill) (s : EngineState) :
    (handleFill now f s).pending.realizedPnLDelta =
      s.pending.realizedPnLDelta + orZero f.realized_pnl := rfl

lemma handleFill_pending_volumeDelta (now : ℤ) (f : Fill) (s : EngineState) :
    (handleFill now f s).pending.volumeDelta =
      jadd s.pending.volumeDelta (jmul f.price f.size) := rfl

lemma handleFill_pending_newOrdersCount (now : ℤ) (f : Fill) (s : EngineState) :
    (handleFill now f s).pending.newOrdersCount = s.pending.newOrdersCount := rfl

lemma handleFill_pending_equity (now : ℤ) (f : Fill) (s : EngineState) :
    (handleFill now f s).pending.equity = s.pending.equity := rfl

lemma handleFill_pending_unrealizedPnL (now : ℤ) (f : Fill) (s : EngineState) :
    (handleFill now f s).pending.unrealizedPnL = s.pending.unrealizedPnL := rfl

lemma handleFill_pending_fills (now : ℤ) (f : Fill) (s : EngineState) :
    (handleFill now f s).pending.fills = s.pending.fills ++ [f] := rfl

lemma handleFill_pending_pnlPoints (now : ℤ) (f : Fill) (s : EngineState) :
    (handleFill now f s).pending.pnlPoints =
      s.pending.pnlPoints ++ [⟨now, curTotalPnL (handleFill now f s)⟩] := rfl

lemma handleFill_marketStatsRef (now : ℤ) (f : Fill) (s : EngineState) :
    (handleFill now f s).marketStatsRef =
      mset s.marketStatsRef f.market
        (let stats := (mget s.marketStatsRef f.market).getD (emptyStats f.market);
          { stats with
            realizedPnL := stats.realizedPnL + orZero f.realized_pnl
            fees := stats.fees + orZero f.fee
            volume := jadd stats.volume (jmul f.price f.size)
            fillCount := stats.fillCount + 1 }) := rfl

lemma handleFill_lastFillTimeRef (now : ℤ) (f : Fill) (s : EngineState) :
    (handleFill now f s).lastFillTimeRef = mset s.lastFillTimeRef f.market now := rfl

lemma handleAccount_published (now : ℤ) (a : AccountData) (s : EngineState) :
    (handleAccount now a s).published = s.published := rfl

lemma handleAccount_positionsRef (now : ℤ) (a : AccountData) (s : EngineState) :
    (handleAccount now a s).positionsRef = s.positionsRef := rfl

lemma handleAccount_marketStatsRef (now : ℤ) (a : AccountData) (s : EngineState) :
    (handleAccount now a s).marketStatsRef = s.marketStatsRef := rfl

lemma handleOrder_published (o : Order) (s : EngineState) :
    (handleOrder o s).published = s.published := by
  unfold handleOrder
  dsimp only []
  repeat' split
  all_goals rfl

lemma handleOrder_positionsRef (o : Order) (s : EngineState) :
    (handleOrder o s).positionsRef = s.positionsRef := by
  unfold handleOrder
  dsimp only []
  repeat' split
  all_goals rfl

lemma handleOrder_pending_feesDelta (o : Order) (s : EngineState) :
    (handleOrder o s).pending.feesDelta = s.pending.feesDelta := by
  unfold handleOrder
  dsimp only []
  repeat' split
  all_goals rfl

lemma handleOrder_pending_realizedPnLDelta (o : Order) (s : EngineState) :
    (handleOrder o s).pending.realizedPnLDelta = s.pending.realizedPnLDelta := by
  unfold handleOrder
  dsimp only []
  repeat' split
  all_goals rfl

lemma handleOrder_pending_volumeDelta (o : Order) (s : EngineState) :
    (handleOrder o s).pending.volumeDelta = s.pending.volumeDelta := by
  unfold handleOrder
  dsimp only []
  repeat' split
  all_goals rfl

lemma handleOrder_pending_equity (o : Order) (s : EngineState) :
    (handleOrder o s).pending.equity = s.pending.equity := by
  unfold handleOrder
  dsimp only []
  repeat' split
  all_goals rfl

lemma handleOrder_pending_unrealizedPnL (o : Order) (s : EngineState) :
    (handleOrder o s).pending.unrealizedPnL = s.pending.unrealizedPnL := by
  unfold handleOrder
  dsimp only []
  repeat' split
  all_goals rfl

lemma handleOrder_pending_pnlPoints (o : Order) (s : EngineState) :
    (handleOrder o s).pending.pnlPoints = s.pending.pnlPoints := by
  unfold handleOrder
  dsimp only []
  repeat' split
  all_goals rfl

lemma handleOrder_pending_fills (o : Order) (s : EngineState) :
    (handleOrder o s).pending.fills = s.pending.fills := by
  unfold handleOrder
  dsimp only []
  repeat' split
  all_goals rfl

lemma handleOrder_open_newOrdersCount (o : Order) (s : EngineState)
    (h : o.status = "NEW" ∨ o.status = "OPEN") :
    (handleOrder o s).pending.newOrdersCount = s.pending.newOrdersCount + 1 := by
  unfold handleOrder
  rw [if_pos h]

lemma handleOrder_open_orderPoints (o : Order) (s : EngineState)
    (h : o.status = "NEW" ∨ o.status = "OPEN") :
    (handleOrder o s).pending.orderPoints =
      s.pending.orderPoints ++ [⟨o.created_at, 0⟩] := by
  unfold handleOrder
  rw [if_pos h]

lemma handleOrder_open_marketStatsRef (o : Order) (s : EngineState)
    (h : o.status = "NEW" ∨ o.status = "OPEN") :
    (handleOrder o s).marketStatsRef =
      mset s.marketStatsRef o.market
        (let stats := (mget s.marketStatsRef o.market).getD (emptyStats o.market);
          { stats with orderCount := stats.orderCount + 1 }) := by
  unfold handleOrder
  rw [if_pos h]

lemma handleOrder_open_openOrdersRef (o : Order) (s : EngineState)
    (h : o.status = "NEW" ∨ o.status = "OPEN") :
    (handleOrder o s).openOrdersRef = mset s.openOrdersRef o.market o := by
  unfold handleOrder
  rw [if_pos h]

lemma handleOrder_not_open_newOrdersCount (o : Order) (s : EngineState)
    (h : ¬ (o.status = "NEW" ∨ o.status = "OPEN")) :
    (handleOrder o s).pending.newOrdersCount = s.pending.newOrdersCount := by
  unfold handleOrder
  rw [if_neg h]
  dsimp only []
  repeat' split
  all_goals rfl

lemma handleOrder_not_open_orderPoints (o : Order) (s : EngineState)
    (h : ¬ (o.status = "NEW" ∨ o.status = "OPEN")) :
    (handleOrder o s).pending.orderPoints = s.pending.orderPoints := by
  unfold handleOrder
  rw [if_neg h]
  dsimp only []
  repeat' split
  all_goals rfl

lemma handleOrder_not_open_marketStatsRef (o : Order) (s : EngineState)
    (h : ¬ (o.status = "NEW" ∨ o.status = "OPEN")) :
    (handleOrder o s).marketStatsRef = s.marketStatsRef := by
  unfold handleOrder
  rw [if_neg h]
  dsimp only []
  repeat' split
  all_goals rfl

lemma handlePosition_published (now : ℤ) (p : WSPosition) (s : EngineState) :
    (handlePosition now p s).published = s.published := by
  unfold handlePosition
  dsimp only []
  repeat' split
  all_goals rfl

lemma handlePosition_pending_feesDelta (now : ℤ) (p : WSPosition) (s : EngineState) :
    (handlePosition now p s).pending.feesDelta = s.pending.feesDelta := by
  unfold handlePosition
  dsimp only []
  repeat' split
  all_goals rfl

lemma handlePosition_pending_realizedPnLDelta (now : ℤ) (p : WSPosition) (s : EngineState) :
    (handlePosition now p s).pending.realizedPnLDelta = s.pending.realizedPnLDelta := by
  unfold handlePosition
  dsimp only []
  repeat' split
  all_goals rfl

lemma handlePosition_pending_volumeDelta (now : ℤ) (p : WSPosition) (s : EngineState) :
    (handlePosition now p s).pending.volumeDelta = s.pending.volumeDelta := by
  unfold handlePosition
  dsimp only []
  repeat' split
  all_goals rfl

lemma handlePosition_pending_newOrdersCount (now : ℤ) (p : WSPosition) (s : EngineState) :
    (handlePosition now p s).pending.newOrdersCount = s.pending.newOrdersCount := by
  unfold handlePosition
  dsimp only []
  repeat' split
  all_goals rfl

lemma handlePosition_pending_equity (now : ℤ) (p : WSPosition) (s : EngineState) :
    (handlePosition now p s).pending.equity = s.pending.equity := by
  unfold handlePosition
  dsimp only []
  repeat' split
  all_goals rfl

lemma handlePosition_pending_fills (now : ℤ) (p : WSPosition) (s : EngineState) :
    (handlePosition now p s).pending.fills = s.pending.fills := by
  unfold handlePosition
  dsimp only []
  repeat' split
  all_goals rfl

lemma handlePosition_pending_orderPoints (now : ℤ) (p : WSPosition) (s : EngineState) :
    (handlePosition now p s).pending.orderPoints = s.pending.orderPoints := by
  unfold handlePosition
  dsimp only []
  repeat' split
  all_goals rfl

lemma handlePosition_pending_positionsChanged (now : ℤ) (p : WSPosition) (s : EngineState) :
    (handlePosition now p s).pending.positionsChanged = true := by
  unfold handlePosition
  dsimp only []

lemma handlePosition_pending_unrealizedPnL (now : ℤ) (p : WSPosition) (s : EngineState) :
    (handlePosition now p s).pending.unrealizedPnL =
      some (posTotalUnrealized (handlePosition now p s).positionsRef) := by
  unfold handlePosition
  dsimp only []

lemma handlePosition_pending_pnlPoints (now : ℤ) (p : WSPosition) (s : EngineState) :
    (handlePosition now p s).pending.pnlPoints =
      s.pending.pnlPoints ++ [⟨now, curTotalPnL (handlePosition now p s)⟩] := by
  unfold handlePosition curTotalPnL
  dsimp only []
  repeat' split
  all_goals rfl

lemma handlePosition_positionsRef_closed (now : ℤ) (p : WSPosition) (s : EngineState)
    (h : p.status = some "CLOSED" ∨ p.size = some 0) :
    (handlePosition now p s).positionsRef = mdelete s.positionsRef p.market := by
  unfold handlePosition
  rw [if_pos h]
  dsimp only []
  repeat' split
  all_goals rfl

lemma handlePosition_positionsRef_live (now : ℤ) (p : WSPosition) (s : EngineState)
    (h : ¬ (p.status = some "CLOSED" ∨ p.size = some 0)) :
    (handlePosition now p s).positionsRef = mset s.positionsRef p.market p := by
  unfold handlePosition
  rw [if_neg h]

lemma handlePosition_stats_closed (now : ℤ) (p : WSPosition) (s : EngineState)
    (h : p.status = some "CLOSED" ∨ p.size = some 0) :
    (handlePosition now p s).marketStatsRef =
      match mget s.marketStatsRef p.market with
      | none => s.marketStatsRef
      | some stats =>
          mset s.marketStatsRef p.market { stats with unrealizedPnL := 0 } := by
  cases hm : mget s.marketStatsRef p.market with
  | none =>
      unfold handlePosition
      rw [if_pos h]
      dsimp only []
      rw [hm]
  | some stats =>
      unfold handlePosition
      rw [if_pos h]
      dsimp only []
      rw [hm]

lemma handlePosition_stats_live (now : ℤ) (p : WSPosition) (s : EngineState)
    (h : ¬ (p.status = some "CLOSED" ∨ p.size = some 0)) :
    (handlePosition now p s).marketStatsRef =
      mset s.marketStatsRef p.market
        (let stats := (mget s.marketStatsRef p.market).getD (emptyStats p.market);
          { stats with unrealizedPnL := orZero p.unrealized_pnl }) := by
  unfold handlePosition
  rw [if_neg h]

lemma handleAccount_pending_equity (now : ℤ) (a : AccountData) (s : EngineState) :
    (handleAccount now a s).pending.equity =
      if 0 < accountEquity a then some (accountEquity a) else s.pending.equity := by
  by_cases h : 0 < accountEquity a
  · rw [if_pos h]
    simp only [handleAccount]
    rw [if_pos h]
    split <;> rfl
  · rw [if_neg h]
    simp only [handleAccount]
    rw [if_neg h]
    split <;> rfl

lemma handleAccount_pending_feesDelta (now : ℤ) (a : AccountData) (s : EngineState) :
    (handleAccount now a s).pending.feesDelta = s.pending.feesDelta := by
  unfold handleAccount
  dsimp only []
  repeat' split
  all_goals rfl

lemma handleAccount_pending_realizedPnLDelta (now : ℤ) (a : AccountData) (s : EngineState) :
    (handleAccount now a s).pending.realizedPnLDelta = s.pending.realizedPnLDelta := by
  unfold handleAccount
  dsimp only []
  repeat' split
  all_goals rfl

lemma handleAccount_pending_volumeDelta (now : ℤ) (a : AccountData) (s : EngineState) :
    (handleAccount now a s).pending.volumeDelta = s.pending.volumeDelta := by
  unfold handleAccount
  dsimp only []
  repeat' split
  all_goals rfl

lemma handleAccount_pending_newOrdersCount (now : ℤ) (a : AccountData) (s : EngineState) :
    (handleAccount now a s).pending.newOrdersCount = s.pending.newOrdersCount := by
  unfold handleAccount
  dsimp only []
  repeat' split
  all_goals rfl

lemma handleAccount_pending_fills (now : ℤ) (a : AccountData) (s : EngineState) :
    (handleAccount now a s).pending.fills = s.pending.fills := by
  unfold handleAccount
  dsimp only []
  repeat' split
  all_goals rfl

lemma handleAccount_pending_orderPoints (now : ℤ) (a : AccountData) (s : EngineState) :
    (handleAccount now a s).pending.orderPoints = s.pending.orderPoints := by
  unfold handleAccount
  dsimp only []
  repeat' split
  all_goals rfl

lemma handleAccount_pnlPoints (now : ℤ) (a : AccountData) (s : EngineState) :
    (handleAccount now a s).pending.pnlPoints = s.pending.pnlPoints ∨
      (handleAccount now a s).pending.pnlPoints =
        s.pending.pnlPoints ++ [⟨now, curTotalPnL (handleAccount now a s)⟩] := by
  unfold handleAccount curTotalPnL
  dsimp only []
  repeat' split
  all_goals first
    | (left; rfl)
    | (right; rfl)

lemma keys_map_replace {α : Type} (m : MapL α) (k : String) (v : α) :
    (m.map (fun e => if e.1 = k then (k, v) else e)).map Prod.fst = m.map Prod.fst := by
  induction m with
  | nil => rfl
  | cons e rest ih =>
      by_cases he : e.1 = k <;> simp [he, ih]

lemma nodup_keys_mset {α : Type} (m : MapL α) (k : String) (v : α)
    (h : (m.map Prod.fst).Nodup) : ((mset m k v).map Prod.fst).Nodup := by
  cases hm : mget m k with
  | some w =>
      have hp : (mget m k).isSome := by rw [hm]; rfl
      unfold mset
      rw [if_pos hp, keys_map_replace]
      exact h
  | none =>
      have hp : ¬ (mget m k).isSome = true := by rw [hm]; simp
      unfold mset
      rw [if_neg hp]
      have hk : k ∉ m.map Prod.fst := by
        intro hmem
        obtain ⟨e, he, hek⟩ := List.mem_map.mp hmem
        exact ((mget_eq_none_iff m k).mp hm e he) hek
      rw [List.map_append]
      simp [List.nodup_append, h, hk]

lemma nodup_keys_mdelete {α : Type} (m : MapL α) (k : String)
    (h : (m.map Prod.fst).Nodup) : ((mdelete m k).map Prod.fst).Nodup := by
  have hs : (mdelete m k).Sublist m := List.filter_sublist m
  exact List.Nodup.sublist (hs.map Prod.fst) h

lemma posTotal_foldl (m : MapL WSPosition) (a : ℚ) :
    List.foldl (fun acc e => acc + orZero e.2.unrealized_pnl) a m
      = a + posTotalUnrealized m := by
  induction m generalizing a with
  | nil => simp [posTotalUnrealized]
  | cons e rest ih =>
      simp only [posTotalUnrealized, List.foldl_cons] at ih ⊢
      rw [ih (a + orZero e.2.unrealized_pnl), ih (0 + orZero e.2.unrealized_pnl)]
      ring

lemma posTotal_cons (e : String × WSPosition) (m : MapL WSPosition) :
    posTotalUnrealized (e :: m) = orZero e.2.unrealized_pnl + posTotalUnrealized m := by
  show List.foldl (fun acc e => acc + orZero e.2.unrealized_pnl) 0 (e :: m) = _
  rw [List.foldl_cons, posTotal_foldl]
  ring

lemma posTotal_mdelete (m : MapL WSPosition) (k : String)
    (h : (m.map Prod.fst).Nodup) :
    posTotalUnrealized (mdelete m k) = posTotalUnrealized m - posContribution m k := by
  induction m with
  | nil => simp [mdelete, posContribution, mget, posTotalUnrealized]
  | cons e rest ih =>
      have h' := h
      rw [List.map_cons] at h'
      have h2 := List.nodup_cons.mp h'
      by_cases he : e.1 = k
      · have hnone : mget rest k = none := by
          rw [mget_eq_none_iff]
          intro x hx hxk
          exact h2.1 (List.mem_map.mpr ⟨x, hx, hxk.trans he.symm⟩)
        have hdel : mdelete (e :: rest) k = rest := by
          have h1 : mdelete (e :: rest) k = mdelete rest k := by
            simp [mdelete, List.filter_cons, he]
          rw [h1, mdelete_eq_self rest k hnone]
        rw [hdel, posTotal_cons]
        unfold posContribution
        rw [mget_cons, if_pos he]
        simp only [Option.map_some', Option.getD_some]
        ring
      · have h1 : mdelete (e :: rest) k = e :: mdelete rest k := by
          simp [mdelete, List.filter_cons, he]
        rw [h1, posTotal_cons, posTotal_cons, ih h2.2]
        unfold posContribution
        rw [mget_cons, if_neg he]
        ring

lemma run_append (l₁ l₂ : List Act) : run (l₁ ++ l₂) = l₂.foldl step (run l₁) := by
  simp [run, List.foldl_append]

/-- C9: for every position and open-order map, `getExitOrder` returns the
market's tracked open order exactly when that order is on the opposite side
of the position (SELL for LONG, BUY for SHORT); with no tracked order for the
market, nothing is returned. -/
theorem c9_exit_order_opposite_side (openOrders : MapL Order) (position : Position)
    (o : Order) :
    (getExitOrder openOrders position = some o ↔
      mget openOrders position.market = some o ∧
        ((position.side = "LONG" ∧ o.side = "SELL") ∨
          (position.side = "SHORT" ∧ o.side = "BUY"))) ∧
    (mget openOrders position.market = none → getExitOrder openOrders position = none) := by
  constructor
  · unfold getExitOrder
    cases hm : mget openOrders position.market with
    | none => simp
    | some ord =>
        dsimp only []
        by_cases hc : (position.side = "LONG" ∧ ord.side = "SELL") ∨
            (position.side = "SHORT" ∧ ord.side = "BUY")
        · rw [if_pos hc]
          constructor
          · intro h
            injection h with h
            subst h
            exact ⟨rfl, hc⟩
          · rintro ⟨h1, _⟩
            injection h1 with h1
            rw [h1]
        · rw [if_neg hc]
          constructor
          · intro h
            cases h
          · rintro ⟨h1, h2⟩
            injection h1 with h1
            subst h1
            exact absurd h2 hc
  · intro h
    unfold getExitOrder
    rw [h]

/-- C9 witness: a LONG ETH position with a tracked SELL order on the same
market yields that order as the exit order. -/
theorem c9_exit_order_witness :
    getExitOrder sampleOpenOrders samplePositionRow =
      some { sampleOrderOpen with market := "ETH-USD-PERP" } :=
  ((c9_exit_order_opposite_side sampleOpenOrders samplePositionRow
      { sampleOrderOpen with market := "ETH-USD-PERP" }).1).mpr
    ⟨by decide, Or.inl ⟨by decide, by decide⟩⟩

/-- C1: the claim requires duplicate delivery of the same NEW/OPEN order to
increment `ordersCreated` and the market's `orderCount` once in total, but
`handleOrder` increments both unconditionally, so delivering the same OPEN
order twice counts 2, not 1. -/
theorem c1_duplicate_open_order_double_counted :
    (run [Act.order sampleOrderOpen, Act.order sampleOrderOpen,
        Act.flush]).published.ordersCreated = 2 ∧
    pubOrderCount
      (run [Act.order sampleOrderOpen, Act.order sampleOrderOpen,
          Act.flush]).published "BTC-USD-PERP" = 2 := by
  constructor <;> rfl

lemma handleFill_refFillCount (now : ℤ) (f : Fill) (s : EngineState) :
    refFillCount (handleFill now f s) f.market = refFillCount s f.market + 1 := by
  unfold refFillCount
  rw [handleFill_marketStatsRef, mget_mset_self]
  cases hm : mget s.marketStatsRef f.market <;> simp [hm, emptyStats]

lemma handleFill_not_pendingEmpty (now : ℤ) (f : Fill) (s : EngineState) :
    ¬ pendingEmpty (handleFill now f s).pending := by
  intro hp
  have h1 := hp.1
  rw [handleFill_pending_fills] at h1
  simp at h1

/-- C8: applying a fill adds price×size to the pending volume delta, the
fill's realized P&L and fee to the respective deltas, increments the
market's fillCount, queues the fill at the head of the next published
recentFills, and records the market's last-fill time; and the §8 scenario
(fill of 0.01 at 90000 with fee 1.80, then a position snapshot with
unrealized P&L 5.00) publishes totalVolume 900, totalFees 1.80, unrealized
P&L 5.00 and total P&L 3.20. -/
theorem c8_fill_accumulation_and_scenario :
    (∀ (now : ℤ) (f : Fill) (s : EngineState),
      (handleFill now f s).pending.volumeDelta =
          jadd s.pending.volumeDelta (jmul f.price f.size) ∧
        (handleFill now f s).pending.realizedPnLDelta =
          s.pending.realizedPnLDelta + orZero f.realized_pnl ∧
        (handleFill now f s).pending.feesDelta = s.pending.feesDelta + orZero f.fee ∧
        refFillCount (handleFill now f s) f.market = refFillCount s f.market + 1 ∧
        (flushUpdates (handleFill now f s)).published.recentFills.head? = some f ∧
        mget (handleFill now f s).lastFillTimeRef f.market = some now) ∧
    ((run [Act.fill 10 sampleFill, Act.position 11 samplePos,
          Act.flush]).published.totalVolume = some 900 ∧
      (run [Act.fill 10 sampleFill, Act.position 11 samplePos,
          Act.flush]).published.totalFees = 9 / 5 ∧
      (run [Act.fill 10 sampleFill, Act.position 11 samplePos,
          Act.flush]).published.unrealizedPnL = 5 ∧
      (run [Act.fill 10 sampleFill, Act.position 11 samplePos,
          Act.flush]).published.recentFills.length = 1 ∧
      (run [Act.fill 10 sampleFill, Act.position 11 samplePos,
            Act.flush]).published.realizedPnL -
          (run [Act.fill 10 sampleFill, Act.position 11 samplePos,
            Act.flush]).published.totalFees +
          (run [Act.fill 10 sampleFill, Act.position 11 samplePos,
            Act.flush]).published.unrealizedPnL = 16 / 5) := by
  constructor
  · intro now f s
    refine ⟨rfl, rfl, rfl, handleFill_refFillCount now f s, ?_, ?_⟩
    · rw [flushUpdates_recentFills _ (handleFill_not_pendingEmpty now f s)]
      rw [if_pos (by rw [handleFill_pending_fills]; simp)]
      rw [handleFill_pending_fills]
      simp
    · rw [handleFill_lastFillTimeRef, mget_mset_self]
  · set_option maxRecDepth 10000 in
    refine ⟨?_, ?_, ?_, ?_, ?_⟩ <;> with_unfolding_all decide

lemma flushUpdates_pending_equity (s : EngineState) :
    (flushUpdates s).pending.equity = none := by
  by_cases h : pendingEmpty s.pending
  · rw [flushUpdates_skip s h]
    obtain ⟨-, -, -, -, -, -, -, -, -, he, -⟩ := h
    exact he
  · rw [flushUpdates_pending s h]
    rfl

lemma pending_equity_pos_step (s : EngineState) (a : Act)
    (ih : ∀ e, s.pending.equity = some e → 0 < e) :
    ∀ e, (step s a).pending.equity = some e → 0 < e := by
  intro e he
  cases a with
  | fill now f =>
      simp only [step, handleFill_pending_equity] at he
      exact ih e he
  | order o =>
      simp only [step, handleOrder_pending_equity] at he
      exact ih e he
  | position now p =>
      simp only [step, handlePosition_pending_equity] at he
      exact ih e he
  | account now acc =>
      simp only [step, handleAccount_pending_equity] at he
      by_cases hp : 0 < accountEquity acc
      · rw [if_pos hp] at he
        injection he with he
        rw [← he]
        exact hp
      · rw [if_neg hp] at he
        exact ih e he
  | flush =>
      simp only [step, flushUpdates_pending_equity] at he
      exact Option.noConfusion he

lemma run_pending_equity_pos (acts : List Act) :
    ∀ e, (run acts).pending.equity = some e → 0 < e := by
  suffices h : ∀ (l : List Act) (s : EngineState),
      (∀ e, s.pending.equity = some e → 0 < e) →
        ∀ e, (l.foldl step s).pending.equity = some e → 0 < e by
    exact h acts initState (fun e' h' => Option.noConfusion h')
  intro l
  induction l with
  | nil => exact fun s hs => hs
  | cons a rest ih => exact fun s hs => ih (step s a) (pending_equity_pos_step s a hs)

/-- C3: the published equity after a flush is the pending account-snapshot
equity when one arrived (set exactly by account snapshots whose parsed
equity, with the account_value fallback, is strictly positive — the latest
such snapshot wins since it overwrites the pending slot), and otherwise the
previously published equity; a positive published equity is never reset to
zero by a flush. -/
theorem c3_equity_latest_positive_snapshot (acts : List Act) :
    ((flushUpdates (run acts)).published.equity =
        ((run acts).pending.equity).getD (run acts).published.equity) ∧
    (∀ e, (run acts).pending.equity = some e → 0 < e) ∧
    (∀ (now : ℤ) (a : AccountData), 0 < accountEquity a →
        (handleAccount now a (run acts)).pending.equity = some (accountEquity a)) ∧
    (∀ (now : ℤ) (a : AccountData), ¬ 0 < accountEquity a →
        (handleAccount now a (run acts)).pending.equity = (run acts).pending.equity) ∧
    (∀ (now : ℤ) (f : Fill),
        (handleFill now f (run acts)).pending.equity = (run acts).pending.equity) ∧
    (∀ o : Order, (handleOrder o (run acts)).pending.equity = (run acts).pending.equity) ∧
    (∀ (now : ℤ) (p : WSPosition),
        (handlePosition now p (run acts)).pending.equity = (run acts).pending.equity) ∧
    (0 < (run acts).published.equity → 0 < (flushUpdates (run acts)).published.equity) := by
  have hflush : (flushUpdates (run acts)).published.equity =
      ((run acts).pending.equity).getD (run acts).published.equity := by
    by_cases h : pendingEmpty (run acts).pending
    · rw [flushUpdates_skip _ h]
      obtain ⟨-, -, -, -, -, -, -, -, -, he, -⟩ := h
      rw [he]
      rfl
    · exact flushUpdates_equity _ h
  refine ⟨hflush, run_pending_equity_pos acts, ?_, ?_, ?_, ?_, ?_, ?_⟩
  · intro now a hp
    rw [handleAccount_pending_equity, if_pos hp]
  · intro now a hp
    rw [handleAccount_pending_equity, if_neg hp]
  · intro now f
    rw [handleFill_pending_equity]
  · intro o
    rw [handleOrder_pending_equity]
  · intro now p
    rw [handlePosition_pending_equity]
  · intro hp
    rw [hflush]
    cases he : (run acts).pending.equity with
    | none => exact hp
    | some e => exact run_pending_equity_pos acts e he

/-- C3 witness: an account snapshot with equity 10 on the empty trace sets
the pending equity override to its (positive) parsed value. -/
theorem c3_equity_witness :
    0 < accountEquity sampleAccount ∧
      (handleAccount 5 sampleAccount (run [])).pending.equity =
        some (accountEquity sampleAccount) :=
  ⟨by with_unfolding_all decide,
    (c3_equity_latest_positive_snapshot []).2.2.1 5 sampleAccount
      (by with_unfolding_all decide)⟩

lemma flushUpdates_pending_pnlPoints (s : EngineState) :
    (flushUpdates s).pending.pnlPoints = s.pending.pnlPoints ∨
      (flushUpdates s).pending.pnlPoints = [] := by
  by_cases h : pendingEmpty s.pending
  · rw [flushUpdates_skip s h]
    exact Or.inl rfl
  · rw [flushUpdates_pending s h]
    exact Or.inr rfl

lemma limitArray_mem {α : Type} (arr newItems : List α) (n : ℕ) (q : α)
    (h : q ∈ limitArray arr newItems n) : q ∈ arr ++ newItems := by
  unfold limitArray at h
  by_cases he : newItems.isEmpty
  · rw [if_pos he] at h
    exact List.mem_append_left _ h
  · rw [if_neg he] at h
    by_cases hl : n < (arr ++ newItems).length
    · rw [if_pos hl] at h
      exact List.mem_of_mem_drop h
    · rw [if_neg hl] at h
      exact h

/-- C2: every P&L chart point a handler appends carries exactly the current
total P&L — committed realized P&L plus pending delta, minus committed fees
plus pending delta, plus the current unrealized P&L — at the moment it is
computed, and a flush copies pending P&L points into the published history
unchanged. -/
theorem c2_pnl_points_equal_current_total (s : EngineState) :
    (∀ (a : Act) (p : Pt),
      p ∈ (step s a).pending.pnlPoints →
        p ∈ s.pending.pnlPoints ∨ p.value = curTotalPnL (step s a)) ∧
    (∀ q : Pt,
      q ∈ (flushUpdates s).published.pnlHistory →
        q ∈ s.published.pnlHistory ∨ q ∈ s.pending.pnlPoints) := by
  constructor
  · intro a p hp
    cases a with
    | fill now f =>
        simp only [step] at hp ⊢
        rw [handleFill_pending_pnlPoints] at hp
        rcases List.mem_append.mp hp with h | h
        · exact Or.inl h
        · rcases List.mem_singleton.mp h with rfl
          exact Or.inr rfl
    | order o =>
        simp only [step, handleOrder_pending_pnlPoints] at hp
        exact Or.inl hp
    | position now wp =>
        simp only [step] at hp ⊢
        rw [handlePosition_pending_pnlPoints] at hp
        rcases List.mem_append.mp hp with h | h
        · exact Or.inl h
        · rcases List.mem_singleton.mp h with rfl
          exact Or.inr rfl
    | account now acc =>
        simp only [step] at hp ⊢
        rcases handleAccount_pnlPoints now acc s with heq | heq
        · rw [heq] at hp
          exact Or.inl hp
        · rw [heq] at hp
          rcases List.mem_append.mp hp with h | h
          · exact Or.inl h
          · rcases List.mem_singleton.mp h with rfl
            exact Or.inr rfl
    | flush =>
        simp only [step] at hp
        rcases flushUpdates_pending_pnlPoints s with heq | heq
        · rw [heq] at hp
          exact Or.inl hp
        · rw [heq] at hp
          exact absurd hp (List.not_mem_nil p)
  · intro q hq
    by_cases h : pendingEmpty s.pending
    · rw [flushUpdates_skip s h] at hq
      exact Or.inl hq
    · rw [flushUpdates_pnlHistory s h] at hq
      exact List.mem_append.mp (limitArray_mem _ _ _ q hq)

/-- C2 witness: the fill of the §8 scenario on the mount state appends the
P&L point (10, −1.80), which equals the current total P&L. -/
theorem c2_pnl_point_witness :
    ((⟨10, -(9 / 5)⟩ : Pt) ∈
        (step initState (Act.fill 10 sampleFill)).pending.pnlPoints) ∧
      ((⟨10, -(9 / 5)⟩ : Pt) ∈ initState.pending.pnlPoints ∨
        (⟨10, -(9 / 5)⟩ : Pt).value =
          curTotalPnL (step initState (Act.fill 10 sampleFill))) :=
  ⟨by with_unfolding_all decide,
    (c2_pnl_points_equal_current_total initState).1 (Act.fill 10 sampleFill)
      ⟨10, -(9 / 5)⟩ (by with_unfolding_all decide)⟩

lemma step_positionsRef_nodup (s : EngineState) (a : Act)
    (h : (s.positionsRef.map Prod.fst).Nodup) :
    ((step s a).positionsRef.map Prod.fst).Nodup := by
  cases a with
  | fill now f => simpa [step, handleFill_positionsRef] using h
  | order o => simpa [step, handleOrder_positionsRef] using h
  | account now acc => simpa [step, handleAccount_positionsRef] using h
  | flush => simpa [step, flushUpdates_positionsRef] using h
  | position now p =>
      by_cases hc : p.status = some "CLOSED" ∨ p.size = some 0
      · simp only [step]
        rw [handlePosition_positionsRef_closed now p s hc]
        exact nodup_keys_mdelete _ _ h
      · simp only [step]
        rw [handlePosition_positionsRef_live now p s hc]
        exact nodup_keys_mset _ _ _ h

lemma run_positionsRef_nodup (acts : List Act) :
    ((run acts).positionsRef.map Prod.fst).Nodup := by
  suffices h : ∀ (l : List Act) (s : EngineState),
      (s.positionsRef.map Prod.fst).Nodup →
        ((l.foldl step s).positionsRef.map Prod.fst).Nodup by
    exact h acts initState List.nodup_nil
  intro l
  induction l with
  | nil => exact fun s hs => hs
  | cons a rest ih => exact fun s hs => ih (step s a) (step_positionsRef_nodup s a hs)

lemma handlePosition_not_pendingEmpty (now : ℤ) (p : WSPosition) (s : EngineState) :
    ¬ pendingEmpty (handlePosition now p s).pending := by
  intro hp
  obtain ⟨-, -, -, -, -, -, -, -, -, -, -, hchg, -⟩ := hp
  rw [handlePosition_pending_positionsChanged] at hchg
  exact Bool.noConfusion hchg

/-- C4: a position snapshot whose size parses to 0 or whose status is CLOSED
deletes the market from the tracked positions (so the next published
positions list omits it), zeroes the market's per-market unrealizedPnL stat
when one exists, and makes the pending global unrealized total the previous
tracked total minus the market's contribution; a snapshot with non-zero size
and non-CLOSED status replaces the market's tracked position wholesale and
sets the market's unrealizedPnL stat to the snapshot's parsed value. -/
theorem c4_position_closure_and_replacement (acts : List Act) (now : ℤ) (p : WSPosition) :
    ((p.status = some "CLOSED" ∨ p.size = some 0) →
      mget (handlePosition now p (run acts)).positionsRef p.market = none ∧
        (handlePosition now p (run acts)).pending.unrealizedPnL =
          some (posTotalUnrealized (run acts).positionsRef -
            posContribution (run acts).positionsRef p.market) ∧
        (∀ st, mget (handlePosition now p (run acts)).marketStatsRef p.market = some st →
          st.unrealizedPnL = 0) ∧
        ∀ pos ∈ (flushUpdates (handlePosition now p (run acts))).published.positions,
          pos.market ≠ p.market) ∧
    (¬ (p.status = some "CLOSED" ∨ p.size = some 0) →
      mget (handlePosition now p (run acts)).positionsRef p.market = some p ∧
        (mget (handlePosition now p (run acts)).marketStatsRef p.market).map
          MarketStats.unrealizedPnL = some (orZero p.unrealized_pnl)) := by
  constructor
  · intro hc
    refine ⟨?_, ?_, ?_, ?_⟩
    · rw [handlePosition_positionsRef_closed now p _ hc, mget_mdelete_self]
    · rw [handlePosition_pending_unrealizedPnL,
        handlePosition_positionsRef_closed now p _ hc,
        posTotal_mdelete _ _ (run_positionsRef_nodup acts)]
    · intro st hst
      rw [handlePosition_stats_closed now p _ hc] at hst
      cases hm : mget (run acts).marketStatsRef p.market with
      | none =>
          rw [hm] at hst
          dsimp only [] at hst
          rw [hm] at hst
          exact Option.noConfusion hst
      | some stats =>
          rw [hm] at hst
          dsimp only [] at hst
          rw [mget_mset_self] at hst
          injection hst with hst
          rw [← hst]
    · intro pos hpos
      rw [flushUpdates_positions _ (handlePosition_not_pendingEmpty now p _)] at hpos
      rw [handlePosition_pending_positionsChanged] at hpos
      rw [if_pos rfl] at hpos
      obtain ⟨e, he, hpe⟩ := List.mem_map.mp hpos
      rw [handlePosition_positionsRef_closed now p _ hc] at he
      have hek : e.1 ≠ p.market := by simpa using List.of_mem_filter he
      rw [← hpe]
      exact hek
  · intro hc
    constructor
    · rw [handlePosition_positionsRef_live now p _ hc, mget_mset_self]
    · rw [handlePosition_stats_live now p _ hc, mget_mset_self]
      rfl

/-- C4 witness: after a live BTC position snapshot, a snapshot for the same
market with size "0" removes the market from the tracked positions. -/
theorem c4_position_closure_witness :
    (samplePosClosed.status = some "CLOSED" ∨ samplePosClosed.size = some 0) ∧
      mget (handlePosition 8 samplePosClosed
        (run [Act.position 7 samplePos])).positionsRef samplePosClosed.market = none :=
  ⟨Or.inr rfl,
    ((c4_position_closure_and_replacement [Act.position 7 samplePos] 8
        samplePosClosed).1 (Or.inr rfl)).1⟩

lemma step_recentFills_le (s : EngineState) (a : Act)
    (h : s.published.recentFills.length ≤ 100) :
    (step s a).published.recentFills.length ≤ 100 := by
  cases a with
  | fill now f => simpa [step, handleFill_published] using h
  | order o => simpa [step, handleOrder_published] using h
  | position now p => simpa [step, handlePosition_published] using h
  | account now acc => simpa [step, handleAccount_published] using h
  | flush =>
      simp only [step]
      by_cases hp : pendingEmpty s.pending
      · rw [flushUpdates_skip s hp]
        exact h
      · rw [flushUpdates_recentFills s hp]
        by_cases hf : s.pending.fills ≠ []
        · rw [if_pos hf]
          simp [List.length_take]
        · rw [if_neg hf]
          exact h

lemma run_recentFills_le (acts : List Act) :
    (run acts).published.recentFills.length ≤ 100 := by
  suffices h : ∀ (l : List Act) (s : EngineState),
      s.published.recentFills.length ≤ 100 →
        (l.foldl step s).published.recentFills.length ≤ 100 by
    exact h acts initState (by simp [initState, initDashboardState])
  intro l
  induction l with
  | nil => exact fun s hs => hs
  | cons a rest ih => exact fun s hs => ih (step s a) (step_recentFills_le s a hs)

/-- C10: every published recentFills list holds at most 100 fills, and a
flush prepends the batch's fills in reverse arrival order ahead of the
previously published fills and truncates to the first 100. -/
theorem c10_recent_fills_bounded_newest_first (acts : List Act) :
    (run acts).published.recentFills.length ≤ 100 ∧
      (flushUpdates (run acts)).published.recentFills =
        (if (run acts).pending.fills ≠ [] then
          ((run acts).pending.fills.reverse ++ (run acts).published.recentFills).take 100
        else (run acts).published.recentFills) := by
  refine ⟨run_recentFills_le acts, ?_⟩
  by_cases hp : pendingEmpty (run acts).pending
  · rw [flushUpdates_skip _ hp]
    obtain ⟨hf, -⟩ := hp
    rw [if_neg (by simpa using hf)]
  · exact flushUpdates_recentFills _ hp

lemma ptLe_trans (a b c : Pt) (hab : ptLe a b = true) (hbc : ptLe b c = true) :
    ptLe a c = true := by
  simp only [ptLe, decide_eq_true_eq] at hab hbc ⊢
  exact le_trans hab hbc

lemma ptLe_total (a b : Pt) : (ptLe a b || ptLe b a) = true := by
  simp only [ptLe, Bool.or_eq_true, decide_eq_true_eq]
  exact Int.le_total a.time b.time

lemma mapIdx_map_time (l : List Pt) :
    (l.mapIdx (fun index point => (⟨point.time, (index : ℚ) + 1⟩ : Pt))).map Pt.time =
      l.map Pt.time := by
  apply List.ext_getElem
  · simp [List.length_mapIdx]
  · intro i h1 h2
    simp [List.getElem_map, List.getElem_mapIdx]

/-- C6: whenever a batch holds order points (in whatever arrival order), the
ordersHistory published by the flush is sorted by event timestamp in
non-decreasing order and the point at sorted index i has value i+1, its
rank, so the series is non-decreasing in time. -/
theorem c6_orders_history_sorted_by_rank (s : EngineState)
    (h : s.pending.orderPoints ≠ []) :
    List.Pairwise (· ≤ ·) ((flushUpdates s).published.ordersHistory.map Pt.time) ∧
      ∀ (i : ℕ) (hi : i < (flushUpdates s).published.ordersHistory.length),
        ((flushUpdates s).published.ordersHistory.get ⟨i, hi⟩).value = (i : ℚ) + 1 := by
  have hne : ¬ pendingEmpty s.pending := by
    intro hp
    exact h hp.2.2.2.2.1
  have hh := flushUpdates_ordersHistory s hne
  rw [if_pos h] at hh
  constructor
  · rw [hh, mapIdx_map_time]
    have hs := List.sorted_mergeSort ptLe_trans ptLe_total
      (limitArray s.published.ordersHistory s.pending.orderPoints MAX_HISTORY_POINTS)
    have hs2 : List.Pairwise (fun a b : Pt => a.time ≤ b.time)
        ((limitArray s.published.ordersHistory s.pending.orderPoints
            MAX_HISTORY_POINTS).mergeSort ptLe) := by
      refine hs.imp ?_
      intro a b hab
      simpa [ptLe, decide_eq_true_eq] using hab
    exact List.pairwise_map.mpr hs2
  · intro i hi
    simp only [List.get_eq_getElem]
    have heq := List.getElem_of_eq hh hi
    rw [heq, List.getElem_mapIdx]

/-- C6 witness: order events with creation times 5, 3, 4 delivered in that
order produce, after the flush, a history sorted by timestamp. -/
theorem c6_orders_history_witness :
    (run [Act.order sampleOrderOpen, Act.order sampleOrderOpen2,
        Act.order sampleOrderOpen3]).pending.orderPoints ≠ [] ∧
      List.Pairwise (· ≤ ·)
        ((flushUpdates (run [Act.order sampleOrderOpen, Act.order sampleOrderOpen2,
            Act.order sampleOrderOpen3])).published.ordersHistory.map Pt.time) :=
  ⟨by with_unfolding_all decide,
    (c6_orders_history_sorted_by_rank
      (run [Act.order sampleOrderOpen, Act.order sampleOrderOpen2,
        Act.order sampleOrderOpen3]) (by with_unfolding_all decide)).1⟩

lemma limitArray_length_le {α : Type} (arr newItems : List α) (n : ℕ)
    (h : arr.length ≤ n) : (limitArray arr newItems n).length ≤ n := by
  unfold limitArray
  by_cases he : newItems.isEmpty
  · rw [if_pos he]
    exact h
  · rw [if_neg he]
    by_cases hl : n < (arr ++ newItems).length
    · rw [if_pos hl]
      rw [List.length_drop]
      omega
    · rw [if_neg hl]
      exact le_of_not_lt hl

lemma limitArray_eq_drop {α : Type} (arr newItems : List α) (n : ℕ)
    (hne : newItems ≠ []) (hlen : n < arr.length + newItems.length) :
    limitArray arr newItems n =
      (arr ++ newItems).drop (arr.length + newItems.length - n) := by
  unfold limitArray
  rw [if_neg (by simpa [List.isEmpty_iff] using hne)]
  rw [if_pos (by simpa [List.length_append] using hlen)]
  rw [List.length_append]

lemma step_histories_bounded (s : EngineState) (a : Act)
    (h : s.published.pnlHistory.length ≤ MAX_HISTORY_POINTS ∧
      s.published.volumeHistory.length ≤ MAX_HISTORY_POINTS ∧
      s.published.equityHistory.length ≤ MAX_HISTORY_POINTS ∧
      s.published.ordersHistory.length ≤ MAX_HISTORY_POINTS) :
    (step s a).published.pnlHistory.length ≤ MAX_HISTORY_POINTS ∧
      (step s a).published.volumeHistory.length ≤ MAX_HISTORY_POINTS ∧
      (step s a).published.equityHistory.length ≤ MAX_HISTORY_POINTS ∧
      (step s a).published.ordersHistory.length ≤ MAX_HISTORY_POINTS := by
  cases a with
  | fill now f => simpa [step, handleFill_published] using h
  | order o => simpa [step, handleOrder_published] using h
  | position now p => simpa [step, handlePosition_published] using h
  | account now acc => simpa [step, handleAccount_published] using h
  | flush =>
      simp only [step]
      by_cases hp : pendingEmpty s.pending
      · rw [flushUpdates_skip s hp]
        exact h
      · refine ⟨?_, ?_, ?_, ?_⟩
        · rw [flushUpdates_pnlHistory s hp]
          exact limitArray_length_le _ _ _ h.1
        · rw [flushUpdates_volumeHistory s hp]
          exact limitArray_length_le _ _ _ h.2.1
        · rw [flushUpdates_equityHistory s hp]
          exact limitArray_length_le _ _ _ h.2.2.1
        · rw [flushUpdates_ordersHistory s hp]
          by_cases ho : s.pending.orderPoints ≠ []
          · rw [if_pos ho]
            rw [List.length_mapIdx,
              (List.mergeSort_perm (limitArray s.published.ordersHistory
                s.pending.orderPoints MAX_HISTORY_POINTS) ptLe).length_eq]
            exact limitArray_length_le _ _ _ h.2.2.2
          · rw [if_neg ho]
            exact h.2.2.2

lemma run_histories_bounded (acts : List Act) :
    (run acts).published.pnlHistory.length ≤ MAX_HISTORY_POINTS ∧
      (run acts).published.volumeHistory.length ≤ MAX_HISTORY_POINTS ∧
      (run acts).published.equityHistory.length ≤ MAX_HISTORY_POINTS ∧
      (run acts).published.ordersHistory.length ≤ MAX_HISTORY_POINTS := by
  suffices h : ∀ (l : List Act) (s : EngineState),
      (s.published.pnlHistory.length ≤ MAX_HISTORY_POINTS ∧
        s.published.volumeHistory.length ≤ MAX_HISTORY_POINTS ∧
        s.published.equityHistory.length ≤ MAX_HISTORY_POINTS ∧
        s.published.ordersHistory.length ≤ MAX_HISTORY_POINTS) →
        ((l.foldl step s).published.pnlHistory.length ≤ MAX_HISTORY_POINTS ∧
          (l.foldl step s).published.volumeHistory.length ≤ MAX_HISTORY_POINTS ∧
          (l.foldl step s).published.equityHistory.length ≤ MAX_HISTORY_POINTS ∧
          (l.foldl step s).published.ordersHistory.length ≤ MAX_HISTORY_POINTS) by
    exact h acts initState (by simp [initState, initDashboardState, MAX_HISTORY_POINTS])
  intro l
  induction l with
  | nil => exact fun s hs => hs
  | cons a rest ih => exact fun s hs => ih (step s a) (step_histories_bounded s a hs)

/-- C7: every published history array stays within MAX_HISTORY_POINTS = 1000
points; when the retained points plus a non-empty batch exceed the bound,
`limitArray` keeps exactly the most recent 1000 of the combined sequence
(drop-oldest, no sampling); a non-skipped flush applies `limitArray` with
that bound to the three plain histories, and the sorted ordersHistory holds
exactly the timestamps `limitArray` retained. -/
theorem c7_history_retention (acts : List Act) :
    ((run acts).published.pnlHistory.length ≤ MAX_HISTORY_POINTS ∧
      (run acts).published.volumeHistory.length ≤ MAX_HISTORY_POINTS ∧
      (run acts).published.equityHistory.length ≤ MAX_HISTORY_POINTS ∧
      (run acts).published.ordersHistory.length ≤ MAX_HISTORY_POINTS) ∧
    (∀ {α : Type} (arr newItems : List α) (n : ℕ), newItems ≠ [] →
      n < arr.length + newItems.length →
      limitArray arr newItems n =
        (arr ++ newItems).drop (arr.length + newItems.length - n)) ∧
    (¬ pendingEmpty (run acts).pending →
      (flushUpdates (run acts)).published.pnlHistory =
          limitArray (run acts).published.pnlHistory (run acts).pending.pnlPoints
            MAX_HISTORY_POINTS ∧
        (flushUpdates (run acts)).published.volumeHistory =
          limitArray (run acts).published.volumeHistory (run acts).pending.volumePoints
            MAX_HISTORY_POINTS ∧
        (flushUpdates (run acts)).published.equityHistory =
          limitArray (run acts).published.equityHistory (run acts).pending.equityPoints
            MAX_HISTORY_POINTS) ∧
    ((run acts).pending.orderPoints ≠ [] →
      ((flushUpdates (run acts)).published.ordersHistory.map Pt.time).Perm
        ((limitArray (run acts).published.ordersHistory (run acts).pending.orderPoints
            MAX_HISTORY_POINTS).map Pt.time)) := by
  refine ⟨run_histories_bounded acts, ?_, ?_, ?_⟩
  · intro α arr newItems n hne hlen
    exact limitArray_eq_drop arr newItems n hne hlen
  · intro hp
    exact ⟨flushUpdates_pnlHistory _ hp, flushUpdates_volumeHistory _ hp,
      flushUpdates_equityHistory _ hp⟩
  · intro ho
    have hne : ¬ pendingEmpty (run acts).pending := fun hp => ho hp.2.2.2.2.1
    have hh := flushUpdates_ordersHistory _ hne
    rw [if_pos ho] at hh
    rw [hh, mapIdx_map_time]
    exact (List.mergeSort_perm _ ptLe).map Pt.time

/-- C7 witness: with bound 2, combining two retained points with one new
point drops exactly the oldest; and a one-order batch flushes an
ordersHistory holding exactly the retained timestamps. -/
theorem c7_history_retention_witness :
    (limitArray [(⟨1, 1⟩ : Pt), ⟨2, 2⟩] [(⟨3, 3⟩ : Pt)] 2 =
        ([(⟨1, 1⟩ : Pt), ⟨2, 2⟩] ++ [(⟨3, 3⟩ : Pt)]).drop 1) ∧
      ((run [Act.order sampleOrderOpen]).pending.orderPoints ≠ [] ∧
        ((flushUpdates (run [Act.order sampleOrderOpen])).published.ordersHistory.map
            Pt.time).Perm
          ((limitArray (run [Act.order sampleOrderOpen]).published.ordersHistory
              (run [Act.order sampleOrderOpen]).pending.orderPoints
              MAX_HISTORY_POINTS).map Pt.time)) :=
  ⟨(c7_history_retention []).2.1 [(⟨1, 1⟩ : Pt), ⟨2, 2⟩] [(⟨3, 3⟩ : Pt)] 2
      (by with_unfolding_all decide) (by with_unfolding_all decide),
    by with_unfolding_all decide,
    (c7_history_retention [Act.order sampleOrderOpen]).2.2.2
      (by with_unfolding_all decide)⟩

lemma handleFill_ref_counts (now : ℤ) (f : Fill) (s : EngineState) (m : String) :
    refOrderCount (handleFill now f s) m = refOrderCount s m ∧
      refFillCount s m ≤ refFillCount (handleFill now f s) m := by
  constructor
  · unfold refOrderCount
    rw [handleFill_marketStatsRef, mget_mset]
    by_cases hk : m = f.market
    · rw [if_pos hk]
      rw [hk]
      cases hm : mget s.marketStatsRef f.market <;> simp [hm, emptyStats]
    · rw [if_neg hk]
  · unfold refFillCount
    rw [handleFill_marketStatsRef, mget_mset]
    by_cases hk : m = f.market
    · rw [if_pos hk]
      rw [hk]
      cases hm : mget s.marketStatsRef f.market <;> simp [hm, emptyStats]
    · rw [if_neg hk]

lemma handleOrder_ref_counts (o : Order) (s : EngineState) (m : String) :
    refOrderCount s m ≤ refOrderCount (handleOrder o s) m ∧
      refFillCount (handleOrder o s) m = refFillCount s m := by
  by_cases ho : o.status = "NEW" ∨ o.status = "OPEN"
  · constructor
    · unfold refOrderCount
      rw [handleOrder_open_marketStatsRef o s ho, mget_mset]
      by_cases hk : m = o.market
      · rw [if_pos hk]
        rw [hk]
        cases hm : mget s.marketStatsRef o.market <;> simp [hm, emptyStats]
      · rw [if_neg hk]
    · unfold refFillCount
      rw [handleOrder_open_marketStatsRef o s ho, mget_mset]
      by_cases hk : m = o.market
      · rw [if_pos hk]
        rw [hk]
        cases hm : mget s.marketStatsRef o.market <;> simp [hm, emptyStats]
      · rw [if_neg hk]
  · constructor
    · unfold refOrderCount
      rw [handleOrder_not_open_marketStatsRef o s ho]
    · unfold refFillCount
      rw [handleOrder_not_open_marketStatsRef o s ho]

lemma handlePosition_ref_counts (now : ℤ) (p : WSPosition) (s : EngineState) (m : String) :
    refOrderCount (handlePosition now p s) m = refOrderCount s m ∧
      refFillCount (handlePosition now p s) m = refFillCount s m := by
  by_cases hc : p.status = some "CLOSED" ∨ p.size = some 0
  · have hst := handlePosition_stats_closed now p s hc
    cases hm : mget s.marketStatsRef p.market with
    | none =>
        rw [hm] at hst
        dsimp only [] at hst
        constructor
        · unfold refOrderCount
          rw [hst]
        · unfold refFillCount
          rw [hst]
    | some stats =>
        rw [hm] at hst
        dsimp only [] at hst
        constructor
        · unfold refOrderCount
          rw [hst, mget_mset]
          by_cases hk : m = p.market
          · rw [if_pos hk]
            rw [hk]
            simp [hm]
          · rw [if_neg hk]
        · unfold refFillCount
          rw [hst, mget_mset]
          by_cases hk : m = p.market
          · rw [if_pos hk]
            rw [hk]
            simp [hm]
          · rw [if_neg hk]
  · have hst := handlePosition_stats_live now p s hc
    constructor
    · unfold refOrderCount
      rw [hst, mget_mset]
      by_cases hk : m = p.market
      · rw [if_pos hk]
        rw [hk]
        cases hm : mget s.marketStatsRef p.market <;> simp [hm, emptyStats]
      · rw [if_neg hk]
    · unfold refFillCount
      rw [hst, mget_mset]
      by_cases hk : m = p.market
      · rw [if_pos hk]
        rw [hk]
        cases hm : mget s.marketStatsRef p.market <;> simp [hm, emptyStats]
      · rw [if_neg hk]

lemma countersLE_refl (d : DashboardState) : countersLE d d :=
  ⟨le_refl _, le_refl _, fun v h => ⟨v, h, le_refl _⟩, fun _ => ⟨le_refl _, le_refl _⟩⟩

lemma countersLE_trans {da db dc : DashboardState} (hab : countersLE da db)
    (hbc : countersLE db dc) : countersLE da dc := by
  obtain ⟨a1, b1, c1, e1⟩ := hab
  obtain ⟨a2, b2, c2, e2⟩ := hbc
  refine ⟨le_trans a1 a2, le_trans b1 b2, ?_,
    fun m => ⟨le_trans (e1 m).1 (e2 m).1, le_trans (e1 m).2 (e2 m).2⟩⟩
  intro v₁ h₁
  obtain ⟨v₂, h₂, hle⟩ := c1 v₁ h₁
  obtain ⟨v₃, h₃, hle2⟩ := c2 v₂ h₂
  exact ⟨v₃, h₃, le_trans hle hle2⟩

lemma flushUpdates_refOrderCount (s : EngineState) (m : String) :
    refOrderCount (flushUpdates s) m = refOrderCount s m := by
  unfold refOrderCount
  rw [flushUpdates_marketStatsRef]

lemma flushUpdates_refFillCount (s : EngineState) (m : String) :
    refFillCount (flushUpdates s) m = refFillCount s m := by
  unfold refFillCount
  rw [flushUpdates_marketStatsRef]

lemma step_countersInv_mono (s : EngineState) (a : Act) (hg : goodAct a)
    (h : countersInv s) :
    countersInv (step s a) ∧ countersLE s.published (step s a).published := by
  obtain ⟨hfees, ⟨vd, hvd, hvd0⟩, ⟨tv, htv⟩, hpubref⟩ := h
  cases a with
  | fill now f =>
      obtain ⟨⟨pr, hpr, hpr0⟩, ⟨sz, hsz, hsz0⟩, ⟨fe, hfe, hfe0⟩⟩ := hg
      simp only [step]
      have hz : orZero f.fee = fe := by rw [hfe]; rfl
      constructor
      · refine ⟨?_, ?_, ?_, ?_⟩
        · rw [handleFill_pending_feesDelta, hz]
          exact add_nonneg hfees hfe0
        · refine ⟨vd + pr * sz, ?_, add_nonneg hvd0 (mul_nonneg hpr0 hsz0)⟩
          rw [handleFill_pending_volumeDelta, hvd, hpr, hsz]
          rfl
        · rw [handleFill_published]
          exact ⟨tv, htv⟩
        · intro m
          rw [handleFill_published]
          exact ⟨le_of_le_of_eq (hpubref m).1 (handleFill_ref_counts now f s m).1.symm,
            le_trans (hpubref m).2 (handleFill_ref_counts now f s m).2⟩
      · rw [handleFill_published]
        exact countersLE_refl _
  | order o =>
      simp only [step]
      constructor
      · refine ⟨?_, ?_, ?_, ?_⟩
        · rw [handleOrder_pending_feesDelta]
          exact hfees
        · refine ⟨vd, ?_, hvd0⟩
          rw [handleOrder_pending_volumeDelta, hvd]
        · rw [handleOrder_published]
          exact ⟨tv, htv⟩
        · intro m
          rw [handleOrder_published]
          exact ⟨le_trans (hpubref m).1 (handleOrder_ref_counts o s m).1,
            le_of_le_of_eq (hpubref m).2 (handleOrder_ref_counts o s m).2.symm⟩
      · rw [handleOrder_published]
        exact countersLE_refl _
  | position now p =>
      simp only [step]
      constructor
      · refine ⟨?_, ?_, ?_, ?_⟩
        · rw [handlePosition_pending_feesDelta]
          exact hfees
        · refine ⟨vd, ?_, hvd0⟩
          rw [handlePosition_pending_volumeDelta, hvd]
        · rw [handlePosition_published]
          exact ⟨tv, htv⟩
        · intro m
          rw [handlePosition_published]
          exact ⟨le_of_le_of_eq (hpubref m).1 (handlePosition_ref_counts now p s m).1.symm,
            le_of_le_of_eq (hpubref m).2 (handlePosition_ref_counts now p s m).2.symm⟩
      · rw [handlePosition_published]
        exact countersLE_refl _
  | account now acc =>
      simp only [step]
      constructor
      · refine ⟨?_, ?_, ?_, ?_⟩
        · rw [handleAccount_pending_feesDelta]
          exact hfees
        · refine ⟨vd, ?_, hvd0⟩
          rw [handleAccount_pending_volumeDelta, hvd]
        · rw [handleAccount_published]
          exact ⟨tv, htv⟩
        · intro m
          rw [handleAccount_published]
          have href : (handleAccount now acc s).marketStatsRef = s.marketStatsRef :=
            handleAccount_marketStatsRef now acc s
          unfold refOrderCount refFillCount
          rw [href]
          exact hpubref m
      · rw [handleAccount_published]
        exact countersLE_refl _
  | flush =>
      simp only [step]
      by_cases hp : pendingEmpty s.pending
      · rw [flushUpdates_skip s hp]
        exact ⟨⟨hfees, ⟨vd, hvd, hvd0⟩, ⟨tv, htv⟩, hpubref⟩, countersLE_refl _⟩
      · constructor
        · refine ⟨?_, ?_, ?_, ?_⟩
          · rw [flushUpdates_pending s hp]
            exact le_refl 0
          · refine ⟨0, ?_, le_refl 0⟩
            rw [flushUpdates_pending s hp]
            rfl
          · refine ⟨tv + vd, ?_⟩
            rw [flushUpdates_totalVolume s hp, htv, hvd]
            rfl
          · intro m
            unfold pubOrderCount pubFillCount
            rw [flushUpdates_marketStats s hp, flushUpdates_refOrderCount,
              flushUpdates_refFillCount]
            cases hb : s.pending.marketStatsChanged with
            | false =>
                simp only [Bool.false_eq_true, if_false]
                exact hpubref m
            | true =>
                simp only [if_true]
                exact ⟨le_refl _, le_refl _⟩
        · refine ⟨?_, ?_, ?_, ?_⟩
          · rw [flushUpdates_ordersCreated s hp]
            exact Nat.le_add_right _ _
          · rw [flushUpdates_totalFees s hp]
            exact le_add_of_nonneg_right hfees
          · intro v₁ h₁
            refine ⟨v₁ + vd, ?_, le_add_of_nonneg_right hvd0⟩
            rw [flushUpdates_totalVolume s hp, h₁, hvd]
            rfl
          · intro m
            unfold pubOrderCount pubFillCount
            rw [flushUpdates_marketStats s hp]
            cases hb : s.pending.marketStatsChanged with
            | false =>
                simp only [Bool.false_eq_true, if_false]
                exact ⟨le_refl _, le_refl _⟩
            | true =>
                simp only [if_true]
                exact hpubref m

lemma foldl_countersInv_mono (l : List Act) :
    ∀ s : EngineState, countersInv s → (∀ a ∈ l, goodAct a) →
      countersInv (l.foldl step s) ∧ countersLE s.published (l.foldl step s).published := by
  induction l with
  | nil => exact fun s h _ => ⟨h, countersLE_refl _⟩
  | cons a rest ih =>
      intro s h hg
      have h1 := step_countersInv_mono s a (hg a (List.mem_cons_self a rest)) h
      have h2 := ih (step s a) h1.1 (fun b hb => hg b (List.mem_cons_of_mem a hb))
      exact ⟨h2.1, countersLE_trans h1.2 h2.2⟩

lemma initState_countersInv : countersInv initState := by
  refine ⟨le_refl 0, ⟨0, rfl, le_refl 0⟩, ⟨0, rfl⟩, ?_⟩
  intro m
  exact ⟨le_refl 0, le_refl 0⟩

/-- C5: along any trace whose fills all parse to non-negative price, size
and fee, the published ordersCreated, totalFees, cumulative totalVolume, and
every market's orderCount and fillCount are non-decreasing from any earlier
published state to any later one (terminal order statuses touch none of
them). -/
theorem c5_counters_monotone (pre suf : List Act)
    (hg : ∀ a ∈ pre ++ suf, goodAct a) :
    countersLE (run pre).published (run (pre ++ suf)).published := by
  have hpre : countersInv (run pre) :=
    (foldl_countersInv_mono pre initState initState_countersInv
      (fun a ha => hg a (List.mem_append_left suf ha))).1
  rw [run_append]
  exact (foldl_countersInv_mono suf (run pre) hpre
    (fun a ha => hg a (List.mem_append_right pre ha))).2

/-- C5 witness: the §8 fill followed by a flush only grows the counters of
the mount state. -/
theorem c5_counters_monotone_witness :
    countersLE (run []).published
      (run ([] ++ [Act.fill 10 sampleFill, Act.flush])).published :=
  c5_counters_monotone [] [Act.fill 10 sampleFill, Act.flush] (by
    intro a ha
    simp only [List.nil_append, List.mem_cons, List.not_mem_nil, or_false] at ha
    rcases ha with rfl | rfl
    · exact ⟨⟨90000, rfl, by with_unfolding_all decide⟩,
        ⟨1 / 100, rfl, by with_unfolding_all decide⟩,
        ⟨9 / 5, rfl, by with_unfolding_all decide⟩⟩
    · exact trivial)
